import Mathlib

/-!
Shallow embedding of the decision-and-simulated-execution pipeline of the
`solana-hyper-bot3` repository, together with theorems settling the spec
claims about it.  Machine floats are modelled as rationals; stateful Python
classes become explicit state records with pure transition functions.

Sources embedded:
- `src/core/types.py`               (enums and data records)
- `src/core/logic_gate.py`          (`LogicGate.check`)
- `src/core/hyper_ensemble.py`      (`HyperEnsemble.run`, `_aggregate_votes`)
- `src/core/onflow_engine.py`       (`OnflowEngine.update`, `suggest_allocation`)
- `src/core/mdp_decision.py`        (`MDPDecision.update` formula)
- `src/execution/leverage_engine.py` (`LeverageEngine.compute_position_size`)
- `src/execution/jito_warp.py`      (`JitoWarpExecutor.execute`, included branch)
- `src/simulation/paper_trader.py`  (`PaperTrader.simulate_execution`, `record_exit`)
-/

namespace HyperBot

/-- `ActionType` enum from `src/core/types.py`. -/
inductive ActionType where
  | long
  | short
  | hold
  | exit
  | reduce
  deriving DecidableEq, Repr

/-- `DecisionStatus` enum from `src/core/types.py`. -/
inductive DecisionStatus where
  | approved
  | blocked
  | pending
  deriving DecidableEq, Repr

/-- `BlockReason` enum from `src/core/types.py`. -/
inductive BlockReason where
  | HIGH_MEV_RISK
  | HIGH_LATENCY
  | PRICE_JUMP
  | EMA_DEVIATION
  | LOW_VOLUME
  | LOW_CONFIDENCE
  | CIRCUIT_BREAKER
  | MAX_LOSS_EXCEEDED
  deriving DecidableEq, Repr

/-- `MarketState` record from `src/core/types.py` (numeric fields as `ℚ`). -/
structure MarketState where
  timestamp : Nat := 0
  price : ℚ
  bid : ℚ
  ask : ℚ
  volume_24h : ℚ := 0
  ema_short : Option ℚ := none
  ema_long : Option ℚ := none
  volatility : ℚ := 0
  spread_bps : ℚ := 0
  latency_ms : ℚ := 0
  mev_risk_score : ℚ := 0
  liquidity_depth : ℚ := 0
  deriving DecidableEq, Repr

/-- `Action` record from `src/core/types.py`. -/
structure Action where
  action_type : ActionType
  confidence : ℚ
  size_fraction : ℚ := 0
  leverage : ℚ := 1
  deriving DecidableEq, Repr

/-! ## Logic Gate (`src/core/logic_gate.py`) -/

/-- Threshold configuration of `LogicGate.__init__`. -/
structure LogicGate where
  mev_risk_threshold : ℚ := 7/10
  max_latency_ms : ℚ := 500
  max_price_jump_pct : ℚ := 5
  max_ema_deviation_pct : ℚ := 10
  min_volume_24h : ℚ := 100000
  deriving DecidableEq, Repr

/-- `LogicGate.check`: accumulates the block reasons in source order and
returns `(allowed, reasons)` with `allowed` true exactly when the list is
empty. -/
def LogicGate.check (g : LogicGate) (ms : MarketState) : Bool × List BlockReason :=
  let reasons : List BlockReason :=
    (if ms.mev_risk_score > g.mev_risk_threshold then [BlockReason.HIGH_MEV_RISK] else [])
    ++ (if ms.latency_ms > g.max_latency_ms then [BlockReason.HIGH_LATENCY] else [])
    ++ (if ms.volume_24h < g.min_volume_24h then [BlockReason.LOW_VOLUME] else [])
    ++ (match ms.ema_short with
        | some s =>
          if |(ms.price - s) / s * 100| > g.max_price_jump_pct
          then [BlockReason.PRICE_JUMP] else []
        | none => [])
    ++ (match ms.ema_short, ms.ema_long with
        | some s, some l =>
          if |(s - l) / l * 100| > g.max_ema_deviation_pct
          then [BlockReason.EMA_DEVIATION] else []
        | _, _ => [])
  (reasons.isEmpty, reasons)

/-! ## Q-learning update (`src/core/mdp_decision.py`) -/

/-- The Q-value assignment performed by `MDPDecision.update`:
`new_q = current_q + learning_rate * (reward + discount_factor * max_next_q - current_q)`.
The source method has no terminal (`done`) flag; the discounted successor
term is always part of the update. -/
def q_update (learning_rate discount_factor current_q max_next_q reward : ℚ) : ℚ :=
  current_q + learning_rate * (reward + discount_factor * max_next_q - current_q)

/-! ## Leverage Engine (`src/execution/leverage_engine.py`) -/

/-- `LeverageConfig` dataclass. -/
structure LeverageConfig where
  max_leverage : ℚ := 5
  max_position_pct : ℚ := 7/20
  min_position_pct : ℚ := 1/100
  use_kelly : Bool := true
  deriving DecidableEq, Repr

/-- `LeverageEngine.compute_position_size`: returns
`(leveraged_position_size, effective_leverage)`. -/
def compute_position_size (cfg : LeverageConfig) (current_capital : ℚ)
    (a : Action) (allocation_fraction : ℚ) : ℚ × ℚ :=
  let confidence_scaled := allocation_fraction * a.confidence
  let final_fraction :=
    max cfg.min_position_pct (min confidence_scaled cfg.max_position_pct)
  let position_size := current_capital * final_fraction
  let desired_leverage := min a.leverage cfg.max_leverage
  let effective_leverage := if cfg.use_kelly then desired_leverage else 1
  (position_size * effective_leverage, effective_leverage)

/-! ## Hyper Ensemble (`src/core/hyper_ensemble.py`)

Engine votes are the `Action` values collected by `run` in registration
order; an engine that raises contributes no vote (`Option.none` below).
The `action_scores` dictionary becomes an insertion-ordered association
list, and Python's `max(dict, key=dict.get)` becomes a left fold that keeps
the first key attaining the maximal score. -/

/-- One step of building `action_scores`: add `c` to the score of kind `t`,
inserting `t` at the end on first occurrence (Python dict insertion order). -/
def addVote : List (ActionType × ℚ) → ActionType → ℚ → List (ActionType × ℚ)
  | [], t, c => [(t, c)]
  | (t', s) :: rest, t, c =>
    if t' = t then (t', s + c) :: rest else (t', s) :: addVote rest t c

/-- The `action_scores` association list accumulated over the votes. -/
def buildScores (votes : List Action) : List (ActionType × ℚ) :=
  votes.foldl (fun sc a => addVote sc a.action_type a.confidence) []

/-- `max(action_scores, key=action_scores.get)`: the first entry with the
maximal score.  (Python's `max` scans left to right replacing the running
best only on a strictly greater key; this recursion keeps the head unless
the rest's best is strictly greater, which selects the same first-maximal
entry.) -/
def maxScore : List (ActionType × ℚ) → Option (ActionType × ℚ)
  | [] => none
  | p :: rest =>
    match maxScore rest with
    | none => some p
    | some q => if q.2 > p.2 then some q else some p

/-- `total_confidence`: sum of all vote confidences. -/
def total_confidence (votes : List Action) : ℚ :=
  (votes.map Action.confidence).sum

/-- `HyperEnsemble._aggregate_votes` on the collected votes, returning
`(consensus_action, consensus_confidence)`. -/
def aggregate_votes (votes : List Action) : Action × ℚ :=
  let total := total_confidence votes
  if total = 0 then
    ({ action_type := ActionType.hold, confidence := 0 }, 0)
  else
    match maxScore (buildScores votes) with
    | none => ({ action_type := ActionType.hold, confidence := 0 }, 0)
    | some best =>
      let consensus_confidence := best.2 / total
      let matching := votes.filter (fun v => v.action_type = best.1)
      let avg_size := (matching.map Action.size_fraction).sum / matching.length
      let avg_leverage := (matching.map Action.leverage).sum / matching.length
      ({ action_type := best.1,
         confidence := consensus_confidence,
         size_fraction := avg_size,
         leverage := avg_leverage }, consensus_confidence)

/-- The `Decision` record from `src/core/types.py`, restricted to the fields
the claims mention. -/
structure Decision where
  status : DecisionStatus
  action : Action
  consensus_confidence : ℚ
  block_reasons : List BlockReason
  deriving DecidableEq, Repr

/-- The blocked HOLD decision `HyperEnsemble.run` returns when no engines
are registered or every engine raised. -/
def blockedHoldDecision : Decision :=
  { status := DecisionStatus.blocked,
    action := { action_type := ActionType.hold, confidence := 0 },
    consensus_confidence := 0,
    block_reasons := [BlockReason.LOW_CONFIDENCE] }

/-- `HyperEnsemble.run`, with each registered engine's outcome given as an
`Option Action` in registration order (`none` when the engine raised; the
source drops such votes).  `run`'s no-engines branch and all-engines-failed
branch return the same blocked HOLD decision, so both collapse to the
`votes = []` case. -/
def ensembleRun (min_confidence : ℚ) (engineResults : List (Option Action)) : Decision :=
  let votes := engineResults.filterMap id
  if votes.isEmpty then blockedHoldDecision
  else
    let (consensus_action, consensus_confidence) := aggregate_votes votes
    let status :=
      if consensus_confidence ≥ min_confidence then DecisionStatus.approved
      else DecisionStatus.blocked
    { status := status,
      action := consensus_action,
      consensus_confidence := consensus_confidence,
      block_reasons :=
        if consensus_confidence ≥ min_confidence then []
        else [BlockReason.LOW_CONFIDENCE] }

/-- Summed confidence of the votes for one action kind (used to state what
"the winning kind's summed confidence" means independently of the
`action_scores` accumulation). -/
def sumFor (votes : List Action) (k : ActionType) : ℚ :=
  ((votes.filter (fun v => v.action_type = k)).map Action.confidence).sum

/-- Modelled from the spec sentence for claim C1 only (not from the source):
consensus confidence = winning share boosted by
`0.7 + 0.3 * (votes_for_winner / total_votes)`, clamped to 1.  Compared
against `aggregate_votes`, which the source actually implements. -/
def spec_boosted_confidence (votes : List Action) : ℚ :=
  let total := total_confidence votes
  match maxScore (buildScores votes) with
  | none => 0
  | some best =>
    let votes_for_winner : ℚ := (votes.filter (fun v => v.action_type = best.1)).length
    let agreement := 7/10 + 3/10 * (votes_for_winner / votes.length)
    min (best.2 / total * agreement) 1

/-! ## Allocation Engine (`src/core/onflow_engine.py`) -/

/-- `OnflowEngine` state: configuration plus the EWMA scalars (Python
`None` becomes `Option.none`). -/
structure OnflowEngine where
  ewma_alpha : ℚ := 1/5
  max_allocation : ℚ := 1/2
  min_allocation : ℚ := 1/100
  kelly_fraction : ℚ := 1/4
  ewma_win_rate : Option ℚ := none
  ewma_avg_return : Option ℚ := none
  ewma_volatility : Option ℚ := none
  trade_count : Nat := 0
  deriving DecidableEq, Repr

/-- `OnflowEngine.update`: EWMA update of win rate, average return and
volatility, first sample taken as-is. -/
def OnflowEngine.update (e : OnflowEngine) (won : Bool) (return_pct : ℚ)
    (volatility : ℚ) : OnflowEngine :=
  let win_value : ℚ := if won then 1 else 0
  { e with
    trade_count := e.trade_count + 1,
    ewma_win_rate := some (match e.ewma_win_rate with
      | none => win_value
      | some w => e.ewma_alpha * win_value + (1 - e.ewma_alpha) * w),
    ewma_avg_return := some (match e.ewma_avg_return with
      | none => return_pct
      | some r => e.ewma_alpha * return_pct + (1 - e.ewma_alpha) * r),
    ewma_volatility := some (match e.ewma_volatility with
      | none => volatility
      | some v => e.ewma_alpha * volatility + (1 - e.ewma_alpha) * v) }

/-- `np.clip(x, lo, hi)`. -/
def np_clip (x lo hi : ℚ) : ℚ := min (max x lo) hi

/-- `OnflowEngine.suggest_allocation`.  Python's
`if self.ewma_volatility and self.ewma_volatility > 0` (truthy-and) reduces
to the `> 0` test, since a float that is `0.0` is falsy and a positive one
is truthy. -/
def OnflowEngine.suggest_allocation (e : OnflowEngine) (ms : MarketState) : ℚ :=
  match e.ewma_win_rate, e.ewma_avg_return with
  | some p, some r =>
    let edge := r / 100
    let vol0 : ℚ := if ms.volatility > 0 then ms.volatility else 1/10
    let volatility : ℚ :=
      match e.ewma_volatility with
      | some ev => if ev > 0 then (vol0 + ev) / 2 else vol0
      | none => vol0
    let kelly_f : ℚ := if volatility > 0 then edge / volatility ^ 2 else e.min_allocation
    let kelly_f := kelly_f * e.kelly_fraction
    let kelly_f := kelly_f * (1/2 + p * (1/2))
    np_clip kelly_f e.min_allocation e.max_allocation
  | _, _ => e.min_allocation

/-! ## Bundle-latency simulator (`src/execution/jito_warp.py`) -/

/-- The fields of an `ExecutionReport` produced by the included branch of
`JitoWarpExecutor.execute` (transaction id and timestamp omitted; they are
wall-clock artifacts). -/
structure JitoFill where
  execution_price : ℚ
  slippage_bps : ℚ
  fees : ℚ
  latency_ms : ℚ
  deriving DecidableEq, Repr

/-- The included branch of `JitoWarpExecutor.execute`, deterministic given
the sampled latency.  Slippage is `2 + (latency/100)*0.5 + volatility*10`
bps; a long/buy fills at `ask * (1 + slip)` and any other direction at
`bid / (1 + slip)`; fees are the tip (lamports converted to quote currency
at the snapshot price) plus the fixed `0.000005 * price` network fee. -/
def jito_execute_included (tip_lamports : ℚ) (a : Action) (ms : MarketState)
    (latency_ms : ℚ) : JitoFill :=
  let base_slippage_bps : ℚ := 2
  let latency_slippage_bps := latency_ms / 100 * (1/2)
  let volatility_slippage_bps := ms.volatility * 10
  let total_slippage_bps := base_slippage_bps + latency_slippage_bps + volatility_slippage_bps
  let slippage_factor : ℚ := 1 + total_slippage_bps / 10000
  let execution_price :=
    if a.action_type = ActionType.long then ms.ask * slippage_factor
    else ms.bid / slippage_factor
  let tip_usd := tip_lamports / 1000000000 * ms.price
  let base_fee_usd := 5 / 1000000 * ms.price
  { execution_price := execution_price,
    slippage_bps := total_slippage_bps,
    fees := tip_usd + base_fee_usd,
    latency_ms := latency_ms }

/-! ## Paper Trader (`src/simulation/paper_trader.py`) -/

/-- `SimTrade` dataclass (trade ids as the counter value that named them:
Python's `f"sim_trade_{n}"` is injective in `n`). -/
structure SimTrade where
  trade_id : Nat
  action_type : ActionType
  entry_price : ℚ
  exit_price : Option ℚ := none
  size_usd : ℚ
  leverage : ℚ
  fees : ℚ
  slippage_bps : ℚ
  pnl : Option ℚ := none
  is_closed : Bool := false
  deriving DecidableEq, Repr

/-- `PaperTrader` state.  `open_positions` is the insertion-ordered
id-keyed dictionary; `trades` is the append-only list.  In Python the two
share one mutable `SimTrade` object per trade; here `record_exit` writes
the closed trade back into `trades` by id (equivalent because ids are
unique, which the well-formedness invariant below proves). -/
structure PaperTrader where
  initial_capital : ℚ := 100
  current_capital : ℚ := 100
  base_fee_bps : ℚ := 5
  base_slippage_bps : ℚ := 3
  trades : List SimTrade := []
  open_positions : List (Nat × SimTrade) := []
  trade_counter : Nat := 0
  deriving DecidableEq, Repr

/-- `PaperTrader.__init__`. -/
def mkTrader (initial_capital base_fee_bps base_slippage_bps : ℚ) : PaperTrader :=
  { initial_capital := initial_capital,
    current_capital := initial_capital,
    base_fee_bps := base_fee_bps,
    base_slippage_bps := base_slippage_bps }

/-- `PaperTrader.simulate_execution`: slippage from size and volatility,
entry at ask plus slippage for a long and bid minus slippage otherwise,
entry fee `size * fee_bps/10000` deducted from capital immediately. -/
def simulate_execution (pt : PaperTrader) (a : Action) (ms : MarketState)
    (size_usd : ℚ) : PaperTrader × SimTrade :=
  let counter := pt.trade_counter + 1
  let size_factor := min (size_usd / 10000) 1
  let volatility_factor := ms.volatility
  let total_slippage_bps := pt.base_slippage_bps * (1 + size_factor + volatility_factor)
  let entry_price :=
    if a.action_type = ActionType.long then ms.ask * (1 + total_slippage_bps / 10000)
    else ms.bid * (1 - total_slippage_bps / 10000)
  let fees := size_usd * (pt.base_fee_bps / 10000)
  let trade : SimTrade :=
    { trade_id := counter,
      action_type := a.action_type,
      entry_price := entry_price,
      size_usd := size_usd,
      leverage := a.leverage,
      fees := fees,
      slippage_bps := total_slippage_bps }
  ({ pt with
       trade_counter := counter,
       trades := pt.trades ++ [trade],
       open_positions := pt.open_positions ++ [(counter, trade)],
       current_capital := pt.current_capital - fees },
   trade)

/-- Dictionary lookup in `open_positions`. -/
def findOpen (ops : List (Nat × SimTrade)) (tid : Nat) : Option SimTrade :=
  match ops.find? (fun p => p.1 = tid) with
  | some p => some p.2
  | none => none

/-- The closed-trade record `PaperTrader.record_exit` produces from an open
trade: exit price with fresh slippage, leveraged PnL net of the exit fee
(but not of the entry fee), exit fee added to the trade's cumulative fees. -/
def closeTrade (base_slippage_bps base_fee_bps : ℚ) (trade : SimTrade)
    (ms : MarketState) : SimTrade :=
  let size_factor := min (trade.size_usd / 10000) 1
  let volatility_factor := ms.volatility
  let exit_slippage_bps := base_slippage_bps * (1 + size_factor + volatility_factor)
  let exit_price :=
    if trade.action_type = ActionType.long then ms.bid * (1 - exit_slippage_bps / 10000)
    else ms.ask * (1 + exit_slippage_bps / 10000)
  let price_change_pct :=
    if trade.action_type = ActionType.long then
      (exit_price - trade.entry_price) / trade.entry_price
    else
      (trade.entry_price - exit_price) / trade.entry_price
  let leveraged_return_pct := price_change_pct * trade.leverage
  let exit_fees := trade.size_usd * (base_fee_bps / 10000)
  let pnl := trade.size_usd * leveraged_return_pct - exit_fees
  { trade with
      exit_price := some exit_price,
      pnl := some pnl,
      is_closed := true,
      fees := trade.fees + exit_fees }

/-- `PaperTrader.record_exit`: close the open position `tid` (if any),
writing the closed trade back (in Python, `trades` and `open_positions`
alias one mutable object; here the write-back goes by trade id, equivalent
because reachable states have unique ids) and adding the PnL to capital. -/
def record_exit (pt : PaperTrader) (tid : Nat) (ms : MarketState) :
    PaperTrader × Option SimTrade :=
  match findOpen pt.open_positions tid with
  | none => (pt, none)
  | some trade =>
    let trade' := closeTrade pt.base_slippage_bps pt.base_fee_bps trade ms
    ({ pt with
         trades := pt.trades.map (fun u => if u.trade_id = tid then trade' else u),
         open_positions := pt.open_positions.filter (fun p => ¬ p.1 = tid),
         current_capital := pt.current_capital + trade'.pnl.getD 0 },
     some trade')

/-- One PaperTrader operation: an opening execution or an exit request. -/
inductive TraderOp where
  | exec (a : Action) (ms : MarketState) (size_usd : ℚ)
  | exitAt (tid : Nat) (ms : MarketState)

/-- Apply one operation to the trader state. -/
def applyOp (pt : PaperTrader) : TraderOp → PaperTrader
  | TraderOp.exec a ms s => (simulate_execution pt a ms s).1
  | TraderOp.exitAt tid ms => (record_exit pt tid ms).1

/-- Run a sequence of operations. -/
def runOps (pt : PaperTrader) (ops : List TraderOp) : PaperTrader :=
  ops.foldl applyOp pt

/-- The entry fee a trade paid when it was opened, reconstructed from its
notional and the trader's (immutable) fee rate. -/
def entryFee (base_fee_bps : ℚ) (t : SimTrade) : ℚ :=
  t.size_usd * (base_fee_bps / 10000)

/-- The recorded PnL of a trade if it is closed, `0` while it is open. -/
def closedPnl (t : SimTrade) : ℚ :=
  if t.is_closed then t.pnl.getD 0 else 0

/-- Score held by kind `k` in an `action_scores` association list (robust
formulation as a filtered sum; on the nodup lists `addVote` builds this is
the unique entry's value, or `0` when the kind is absent). -/
def scoreOf (sc : List (ActionType × ℚ)) (k : ActionType) : ℚ :=
  ((sc.filter (fun p => p.1 = k)).map Prod.snd).sum

/-- Well-formedness of a `PaperTrader` state.  Reachable states satisfy it:
the capital ledger equation, open positions pointing at open trades under
their own id, trade ids bounded by the counter, and trade ids pairwise
distinct (which makes the by-id write-back in `record_exit` equivalent to
Python's aliased mutation). -/
def WF (pt : PaperTrader) : Prop :=
  pt.current_capital
      = pt.initial_capital
        + ((pt.trades.map (fun t => closedPnl t - entryFee pt.base_fee_bps t)).sum)
  ∧ (∀ p ∈ pt.open_positions, p.2.trade_id = p.1 ∧ p.2.is_closed = false ∧ p.2 ∈ pt.trades)
  ∧ (∀ t ∈ pt.trades, t.trade_id ≤ pt.trade_counter)
  ∧ pt.trades.Pairwise (fun a b => a.trade_id ≠ b.trade_id)

/-! ## Helper lemmas -/

theorem np_clip_le_hi (x lo hi : ℚ) : np_clip x lo hi ≤ hi := min_le_right _ _

theorem lo_le_np_clip (x lo hi : ℚ) (h : lo ≤ hi) : lo ≤ np_clip x lo hi :=
  le_min (le_max_right _ _) h

theorem np_clip_mono (x y lo hi : ℚ) (h : x ≤ y) : np_clip x lo hi ≤ np_clip y lo hi :=
  min_le_min (max_le_max h le_rfl) le_rfl

theorem np_clip_of_le_lo (x lo hi : ℚ) (h : x ≤ lo) : np_clip x lo hi = min lo hi := by
  rw [np_clip, max_eq_right h]

theorem clip_scale_mono (C lo hi w₁ w₂ : ℚ) (hlo : 0 ≤ lo) (hw₁ : 0 ≤ w₁) (hw : w₁ ≤ w₂) :
    np_clip (C * w₁) lo hi ≤ np_clip (C * w₂) lo hi := by
  rcases le_or_lt 0 C with hC | hC
  · exact np_clip_mono _ _ _ _ (mul_le_mul_of_nonneg_left hw hC)
  · have h1 : C * w₁ ≤ 0 := mul_nonpos_of_nonpos_of_nonneg hC.le hw₁
    have h2 : C * w₂ ≤ 0 := mul_nonpos_of_nonpos_of_nonneg hC.le (hw₁.trans hw)
    rw [np_clip_of_le_lo _ _ _ (h1.trans hlo), np_clip_of_le_lo _ _ _ (h2.trans hlo)]

theorem clip_div_sq_antitone (K lo hi e₁ e₂ : ℚ) (hlo : 0 ≤ lo)
    (he₁ : 0 < e₁) (he : e₁ ≤ e₂) :
    np_clip (K / e₂ ^ 2) lo hi ≤ np_clip (K / e₁ ^ 2) lo hi := by
  rcases le_or_lt 0 K with hK | hK
  · apply np_clip_mono
    have hsq : e₁ ^ 2 ≤ e₂ ^ 2 := by nlinarith
    exact div_le_div_of_nonneg_left hK (by positivity) hsq
  · have h1 : K / e₁ ^ 2 ≤ 0 := by
      apply div_nonpos_of_nonpos_of_nonneg hK.le
      positivity
    have h2 : K / e₂ ^ 2 ≤ 0 := by
      apply div_nonpos_of_nonpos_of_nonneg hK.le
      positivity
    rw [np_clip_of_le_lo _ _ _ (h1.trans hlo), np_clip_of_le_lo _ _ _ (h2.trans hlo)]

/-! ## Claim C4 (Q-learning update direction) -/

/-- Claim C4 as stated is false on the source: `MDPDecision.update` has no
terminal (`done`) parameter — the discounted successor term is always
included — and with learning rate 0.1, discount 0.95, current Q-value 1 and
successor maximum 0, a strictly positive reward of 0.01 strictly decreases
the Q-value. -/
theorem C4_counterexample :
    (0 : ℚ) < 1/100 ∧ q_update (1/10) (19/20) 1 0 (1/100) < 1 := by
  constructor
  · norm_num
  · norm_num [q_update]

/-- Claim C4 (amended): `MDPDecision.update` has no terminal (`done`) flag,
so the discounted successor term is always included.  For a fixed positive
learning rate the update strictly increases `Q(state, action)` exactly when
the temporal-difference target `reward + discount·max_next_q` exceeds the
current value, and strictly decreases it when the target is below the
current value; a positive reward alone guarantees neither. -/
theorem C4_q_update_direction
    (learning_rate discount_factor current_q max_next_q reward : ℚ)
    (hlr : 0 < learning_rate) :
    (current_q < reward + discount_factor * max_next_q →
      current_q < q_update learning_rate discount_factor current_q max_next_q reward) ∧
    (reward + discount_factor * max_next_q < current_q →
      q_update learning_rate discount_factor current_q max_next_q reward < current_q) := by
  unfold q_update
  constructor <;> intro h <;> nlinarith

theorem C4_q_update_direction_witness :
    ((1 : ℚ) < 2 + (19/20) * 0 → (1 : ℚ) < q_update (1/10) (19/20) 1 0 2) ∧
    ((2 : ℚ) + (19/20) * 0 < 1 → q_update (1/10) (19/20) 1 0 2 < 1) :=
  C4_q_update_direction (1/10) (19/20) 1 0 2 (by norm_num)

/-! ## Claim C5 (leverage caps) -/

/-- Claim C5 (confirmed): for every action, market snapshot and allocation
fraction, `LeverageEngine.compute_position_size` returns an effective
leverage at most the configured `max_leverage` and a position size at most
`max_position_pct * current_capital * max_leverage`, under the documented
configuration constraints (`max_leverage ≥ 1`,
`0 ≤ min_position_pct ≤ max_position_pct`, nonnegative capital, and the
action's validated `leverage ≥ 0`). -/
theorem C5_leverage_engine_caps
    (cfg : LeverageConfig) (current_capital allocation_fraction : ℚ) (a : Action)
    (hcap : 0 ≤ current_capital) (hmaxlev : 1 ≤ cfg.max_leverage)
    (hminp : 0 ≤ cfg.min_position_pct)
    (hpp : cfg.min_position_pct ≤ cfg.max_position_pct)
    (hlev : 0 ≤ a.leverage) :
    (compute_position_size cfg current_capital a allocation_fraction).2 ≤ cfg.max_leverage ∧
    (compute_position_size cfg current_capital a allocation_fraction).1 ≤
      cfg.max_position_pct * current_capital * cfg.max_leverage := by
  have hff_le :
      max cfg.min_position_pct
        (min (allocation_fraction * a.confidence) cfg.max_position_pct)
      ≤ cfg.max_position_pct := max_le hpp (min_le_right _ _)
  have hff_0 :
      0 ≤ max cfg.min_position_pct
        (min (allocation_fraction * a.confidence) cfg.max_position_pct) :=
    hminp.trans (le_max_left _ _)
  by_cases hk : cfg.use_kelly <;>
    simp only [compute_position_size, hk, if_true, if_false, Bool.false_eq_true] <;>
    constructor
  · exact min_le_right _ _
  · have h1 : current_capital *
        max cfg.min_position_pct
          (min (allocation_fraction * a.confidence) cfg.max_position_pct)
        ≤ current_capital * cfg.max_position_pct :=
      mul_le_mul_of_nonneg_left hff_le hcap
    have hel0 : 0 ≤ min a.leverage cfg.max_leverage :=
      le_min hlev (zero_le_one.trans hmaxlev)
    have h2 := mul_le_mul_of_nonneg_right h1 hel0
    have h3 : current_capital * cfg.max_position_pct * min a.leverage cfg.max_leverage
        ≤ current_capital * cfg.max_position_pct * cfg.max_leverage :=
      mul_le_mul_of_nonneg_left (min_le_right _ _) (mul_nonneg hcap (hminp.trans hpp))
    nlinarith
  · exact hmaxlev
  · have h1 : current_capital *
        max cfg.min_position_pct
          (min (allocation_fraction * a.confidence) cfg.max_position_pct)
        ≤ current_capital * cfg.max_position_pct :=
      mul_le_mul_of_nonneg_left hff_le hcap
    have h2 : current_capital * cfg.max_position_pct
        ≤ current_capital * cfg.max_position_pct * cfg.max_leverage := by
      nlinarith [mul_nonneg hcap (hminp.trans hpp)]
    nlinarith

theorem C5_leverage_engine_caps_witness :
    (compute_position_size {} 100 ⟨ActionType.long, 4/5, 0, 2⟩ (1/10)).2
        ≤ ({} : LeverageConfig).max_leverage ∧
    (compute_position_size {} 100 ⟨ActionType.long, 4/5, 0, 2⟩ (1/10)).1
        ≤ ({} : LeverageConfig).max_position_pct * 100 * ({} : LeverageConfig).max_leverage :=
  C5_leverage_engine_caps {} 100 (1/10) ⟨ActionType.long, 4/5, 0, 2⟩
    (by norm_num) (by norm_num) (by norm_num) (by norm_num) (by norm_num)

/-! ## Claim C3 (allocation before any trade history) -/

/-- Claim C3 as stated is false on the source: `suggest_allocation` falls
back to `min_allocation` only while the EWMA scalars are still `None`,
i.e. before the first `update` call.  After exactly one recorded trade
(`update(won=True, return_pct=10, volatility=0)` on a default-configured
engine), `trade_count = 1 < 2` yet `suggest_allocation` on a
zero-volatility snapshot returns `max_allocation = 1/2`, not
`min_allocation = 1/100`. -/
theorem C3_counterexample :
    (OnflowEngine.update {} true 10 0).trade_count < 2 ∧
    OnflowEngine.suggest_allocation (OnflowEngine.update {} true 10 0)
        { price := 100, bid := 100, ask := 100 } = 1/2 ∧
    ({} : OnflowEngine).min_allocation = 1/100 ∧
    ((1 : ℚ)/2 ≠ 1/100) := by
  refine ⟨by norm_num [OnflowEngine.update], ?_, by norm_num, by norm_num⟩
  norm_num [OnflowEngine.update, OnflowEngine.suggest_allocation, np_clip]

/-- Claim C3 (amended): with zero recorded trades — before any call to
`update`, while both EWMA scalars are still `None` — `suggest_allocation`
returns exactly `min_allocation` for every possible market snapshot.  (At
one recorded trade the Kelly path already runs, see the counterexample.) -/
theorem C3_fresh_engine_min_allocation (α maxA minA kf : ℚ) (ms : MarketState) :
    OnflowEngine.suggest_allocation
      { ewma_alpha := α, max_allocation := maxA, min_allocation := minA,
        kelly_fraction := kf } ms = minA := rfl

/-! ## Claim C2 (paper-trader fee-only round trip) -/

/-- Claim C2 as stated is false on the source: with zero base slippage,
zero volatility, equal bid/ask of 100 and notional 10000 at fee 5 bps, the
round trip records `pnl = -5` (the exit fee only) — `record_exit` deducts
only the exit fee from the trade's PnL, while the entry fee of 5 was taken
from capital at entry time — whereas the claimed
`-(entry_fee + exit_fee) = -10`. -/
theorem C2_counterexample :
    ((record_exit
        (simulate_execution (mkTrader 100 5 0) ⟨ActionType.long, 1, 0, 1⟩
          { price := 100, bid := 100, ask := 100 } 10000).1
        1 { price := 100, bid := 100, ask := 100 }).2.map SimTrade.pnl)
      = some (some (-5)) ∧
    (10000 * ((5:ℚ)/10000) + 10000 * ((5:ℚ)/10000) = 10) ∧
    ((-5 : ℚ) ≠ -10) := by
  refine ⟨?_, by norm_num, by norm_num⟩
  norm_num [simulate_execution, record_exit, closeTrade, mkTrader, findOpen]

/-- Claim C2 (amended): for any notional `N > 0`, opening a long at a
snapshot with zero volatility and zero base slippage and immediately
closing at the same price (bid = ask = P) yields a recorded trade PnL of
exactly `-exit_fee` (the entry fee is charged to capital at entry and is
not part of the recorded PnL), and a total capital change over the round
trip of `-(entry_fee + exit_fee)` — a loss equal to fees only. -/
theorem C2_roundtrip_fees_only (initial fee_bps N P lev conf : ℚ)
    (hN : 0 < N) (hP : 0 < P) :
    ((record_exit
        (simulate_execution (mkTrader initial fee_bps 0) ⟨ActionType.long, conf, 0, lev⟩
          { price := P, bid := P, ask := P } N).1
        1 { price := P, bid := P, ask := P }).2.map SimTrade.pnl)
      = some (some (-(N * (fee_bps / 10000)))) ∧
    (record_exit
        (simulate_execution (mkTrader initial fee_bps 0) ⟨ActionType.long, conf, 0, lev⟩
          { price := P, bid := P, ask := P } N).1
        1 { price := P, bid := P, ask := P }).1.current_capital
      = initial - (N * (fee_bps / 10000) + N * (fee_bps / 10000)) := by
  simp only [simulate_execution, record_exit, closeTrade, mkTrader, findOpen]
  norm_num
  ring

theorem C2_roundtrip_fees_only_witness :
    ((record_exit
        (simulate_execution (mkTrader 100 5 0) ⟨ActionType.long, 1, 0, 1⟩
          { price := 100, bid := 100, ask := 100 } 10000).1
        1 { price := 100, bid := 100, ask := 100 }).2.map SimTrade.pnl)
      = some (some (-(10000 * ((5:ℚ) / 10000)))) ∧
    (record_exit
        (simulate_execution (mkTrader 100 5 0) ⟨ActionType.long, 1, 0, 1⟩
          { price := 100, bid := 100, ask := 100 } 10000).1
        1 { price := 100, bid := 100, ask := 100 }).1.current_capital
      = 100 - (10000 * ((5:ℚ) / 10000) + 10000 * ((5:ℚ) / 10000)) :=
  C2_roundtrip_fees_only 100 5 10000 100 1 1 (by norm_num) (by norm_num)

/-! ## Claim C9 (bundle-latency simulator fill) -/

/-- Claim C9 as stated is false on the source: for a non-long direction the
included branch of `JitoWarpExecutor.execute` fills at
`bid / (1 + slip)`, not `bid * (1 - slip)`.  With bid 10000, latency 100 ms
and zero volatility the slippage is 2.5 bps, the code's fill price is
`10000 / (1 + 1/4000) = 40000000/4001`, while the claimed
`10000 * (1 - 1/4000) = 19995/2`; the two differ. -/
theorem C9_counterexample :
    (jito_execute_included 10000 ⟨ActionType.short, 1, 0, 1⟩
        { price := 10000, bid := 10000, ask := 10000 } 100).slippage_bps = 5/2 ∧
    (jito_execute_included 10000 ⟨ActionType.short, 1, 0, 1⟩
        { price := 10000, bid := 10000, ask := 10000 } 100).execution_price
      = 40000000/4001 ∧
    (10000 : ℚ) * (1 - (5/2) / 10000) = 19995/2 ∧
    ((40000000 : ℚ)/4001 ≠ 19995/2) := by
  refine ⟨?_, ?_, by norm_num, by norm_num⟩ <;>
    norm_num [jito_execute_included] <;> decide

/-- Claim C9 (amended): for every included bundle the slippage in bps is
the base 2 plus a latency-proportional term `latency/100 * 0.5` plus a
volatility-proportional term `volatility * 10`; the fill price is
`ask * (1 + slip)` for a long direction and `bid / (1 + slip)` — division,
not multiplication by `(1 - slip)` — for any other direction, where `slip`
is the total slippage as a fraction. -/
theorem C9_jito_fill (tip : ℚ) (a : Action) (ms : MarketState) (lat : ℚ) :
    (jito_execute_included tip a ms lat).slippage_bps
        = 2 + lat / 100 * (1/2) + ms.volatility * 10 ∧
    (a.action_type = ActionType.long →
      (jito_execute_included tip a ms lat).execution_price
        = ms.ask * (1 + (jito_execute_included tip a ms lat).slippage_bps / 10000)) ∧
    (a.action_type ≠ ActionType.long →
      (jito_execute_included tip a ms lat).execution_price
        = ms.bid / (1 + (jito_execute_included tip a ms lat).slippage_bps / 10000)) := by
  refine ⟨rfl, ?_, ?_⟩ <;> intro h <;> simp [jito_execute_included, h]

theorem C9_jito_fill_witness :
    (jito_execute_included 10000 ⟨ActionType.short, 1, 0, 1⟩
        { price := 10000, bid := 10000, ask := 10000 } 100).execution_price
      = (10000 : ℚ) /
          (1 + (jito_execute_included 10000 ⟨ActionType.short, 1, 0, 1⟩
            { price := 10000, bid := 10000, ask := 10000 } 100).slippage_bps / 10000) :=
  (C9_jito_fill 10000 ⟨ActionType.short, 1, 0, 1⟩
      { price := 10000, bid := 10000, ask := 10000 } 100).2.2 (by decide)

/-! ## Claim C7 (logic gate reports every violated rule) -/

/-- Claim C7 (confirmed): `LogicGate.check` reports every violated rule,
not just the first: HIGH_MEV_RISK is in the reasons exactly when the MEV
risk score exceeds the threshold, HIGH_LATENCY exactly when latency
exceeds the maximum, LOW_VOLUME exactly when 24h volume is below the
minimum, PRICE_JUMP exactly when a short EMA is present and the relative
price deviation exceeds the maximum jump percent, EMA_DEVIATION exactly
when both EMAs are present and their relative divergence exceeds the
maximum divergence percent; and `allowed` is true exactly when no rule
fired. -/
theorem C7_logic_gate_reports_all (g : LogicGate) (ms : MarketState) :
    (BlockReason.HIGH_MEV_RISK ∈ (g.check ms).2 ↔
      ms.mev_risk_score > g.mev_risk_threshold) ∧
    (BlockReason.HIGH_LATENCY ∈ (g.check ms).2 ↔
      ms.latency_ms > g.max_latency_ms) ∧
    (BlockReason.LOW_VOLUME ∈ (g.check ms).2 ↔
      ms.volume_24h < g.min_volume_24h) ∧
    (BlockReason.PRICE_JUMP ∈ (g.check ms).2 ↔
      ∃ s, ms.ema_short = some s ∧ |(ms.price - s) / s * 100| > g.max_price_jump_pct) ∧
    (BlockReason.EMA_DEVIATION ∈ (g.check ms).2 ↔
      ∃ s, ms.ema_short = some s ∧ ∃ l, ms.ema_long = some l ∧
        |(s - l) / l * 100| > g.max_ema_deviation_pct) ∧
    ((g.check ms).1 = true ↔ (g.check ms).2 = []) := by
  unfold LogicGate.check
  rcases hs : ms.ema_short with _ | s <;> rcases hl : ms.ema_long with _ | l <;>
    simp only [hs, hl] <;> split_ifs <;> simp_all

/-! ## Vote-aggregation lemmas (for claims C1 and C6) -/

theorem scoreOf_cons (t' : ActionType) (s : ℚ) (sc : List (ActionType × ℚ))
    (k : ActionType) :
    scoreOf ((t', s) :: sc) k = (if t' = k then s else 0) + scoreOf sc k := by
  by_cases h : t' = k <;> simp [scoreOf, List.filter_cons, h]

theorem sumFor_cons (a : Action) (votes : List Action) (k : ActionType) :
    sumFor (a :: votes) k
      = (if a.action_type = k then a.confidence else 0) + sumFor votes k := by
  by_cases h : a.action_type = k <;> simp [sumFor, List.filter_cons, h]

theorem scoreOf_nil (k : ActionType) : scoreOf [] k = 0 := rfl

theorem scoreOf_addVote (sc : List (ActionType × ℚ)) (t : ActionType) (c : ℚ)
    (k : ActionType) :
    scoreOf (addVote sc t c) k = scoreOf sc k + (if t = k then c else 0) := by
  induction sc with
  | nil => simp [addVote, scoreOf_cons, scoreOf_nil]
  | cons hd tl ih =>
    obtain ⟨t', s⟩ := hd
    by_cases h : t' = t
    · subst h
      have hav : addVote ((t', s) :: tl) t' c = (t', s + c) :: tl := by
        simp [addVote]
      rw [hav, scoreOf_cons, scoreOf_cons]
      by_cases h2 : t' = k <;> simp [h2] <;> ring
    · have hav : addVote ((t', s) :: tl) t c = (t', s) :: addVote tl t c := by
        simp [addVote, h]
      rw [hav, scoreOf_cons, scoreOf_cons, ih]
      ring

theorem values_sum_addVote (sc : List (ActionType × ℚ)) (t : ActionType) (c : ℚ) :
    ((addVote sc t c).map Prod.snd).sum = (sc.map Prod.snd).sum + c := by
  induction sc with
  | nil => simp [addVote]
  | cons hd tl ih =>
    obtain ⟨t', s⟩ := hd
    by_cases h : t' = t <;> simp [addVote, h, ih] <;> ring

theorem scoreOf_foldl (votes : List Action) (sc : List (ActionType × ℚ))
    (k : ActionType) :
    scoreOf (votes.foldl (fun sc a => addVote sc a.action_type a.confidence) sc) k
      = scoreOf sc k + sumFor votes k := by
  induction votes generalizing sc with
  | nil => simp [sumFor, scoreOf]
  | cons a rest ih =>
    rw [List.foldl_cons, ih, scoreOf_addVote, sumFor_cons]
    ring

theorem scoreOf_buildScores (votes : List Action) (k : ActionType) :
    scoreOf (buildScores votes) k = sumFor votes k := by
  rw [buildScores, scoreOf_foldl]
  simp [scoreOf]

theorem values_sum_foldl (votes : List Action) (sc : List (ActionType × ℚ)) :
    ((votes.foldl (fun sc a => addVote sc a.action_type a.confidence) sc).map
        Prod.snd).sum
      = (sc.map Prod.snd).sum + total_confidence votes := by
  induction votes generalizing sc with
  | nil => simp [total_confidence]
  | cons a rest ih =>
    rw [List.foldl_cons, ih, values_sum_addVote, total_confidence]
    simp [total_confidence]
    ring

theorem values_sum_buildScores (votes : List Action) :
    ((buildScores votes).map Prod.snd).sum = total_confidence votes := by
  rw [buildScores, values_sum_foldl]
  simp

theorem addVote_nonneg (sc : List (ActionType × ℚ)) (t : ActionType) (c : ℚ)
    (hsc : ∀ p ∈ sc, 0 ≤ p.2) (hc : 0 ≤ c) :
    ∀ p ∈ addVote sc t c, 0 ≤ p.2 := by
  induction sc with
  | nil =>
    intro p hp
    simp [addVote] at hp
    simp [hp, hc]
  | cons hd tl ih =>
    intro p hp
    obtain ⟨t', s⟩ := hd
    have hs : 0 ≤ s := by simpa using hsc (t', s) (List.mem_cons_self _ _)
    have htl : ∀ q ∈ tl, 0 ≤ q.2 := fun q hq => hsc q (List.mem_cons_of_mem _ hq)
    by_cases h : t' = t
    · rw [addVote, if_pos h] at hp
      rcases List.mem_cons.1 hp with rfl | hp
      · simpa using add_nonneg hs hc
      · exact htl p hp
    · rw [addVote, if_neg h] at hp
      rcases List.mem_cons.1 hp with rfl | hp
      · simpa using hs
      · exact ih htl p hp

theorem foldl_scores_nonneg (votes : List Action) :
    ∀ (sc : List (ActionType × ℚ)), (∀ p ∈ sc, 0 ≤ p.2) →
      (∀ a ∈ votes, 0 ≤ a.confidence) →
      ∀ p ∈ votes.foldl (fun sc a => addVote sc a.action_type a.confidence) sc,
        0 ≤ p.2 := by
  induction votes with
  | nil =>
    intro sc hsc _ p hp
    simpa using hsc p (by simpa using hp)
  | cons a rest ih =>
    intro sc hsc hconf p hp
    rw [List.foldl_cons] at hp
    exact ih _
      (addVote_nonneg sc _ _ hsc (hconf a (List.mem_cons_self _ _)))
      (fun b hb => hconf b (List.mem_cons_of_mem _ hb)) p hp

theorem buildScores_nonneg (votes : List Action)
    (hconf : ∀ a ∈ votes, 0 ≤ a.confidence) :
    ∀ p ∈ buildScores votes, 0 ≤ p.2 :=
  foldl_scores_nonneg votes [] (by simp) hconf

theorem maxScore_mem (sc : List (ActionType × ℚ)) (b : ActionType × ℚ)
    (h : maxScore sc = some b) : b ∈ sc := by
  induction sc generalizing b with
  | nil => simp [maxScore] at h
  | cons p tl ih =>
    rw [maxScore] at h
    cases htl : maxScore tl with
    | none =>
      rw [htl] at h
      simp at h
      simp [h]
    | some q =>
      rw [htl] at h
      by_cases hq : q.2 > p.2 <;> simp [hq] at h
      · exact List.mem_cons_of_mem _ (h ▸ ih q htl)
      · simp [h]

theorem maxScore_ge (sc : List (ActionType × ℚ)) (b : ActionType × ℚ)
    (h : maxScore sc = some b) : ∀ p ∈ sc, p.2 ≤ b.2 := by
  induction sc generalizing b with
  | nil => simp
  | cons p tl ih =>
    intro q hq
    rw [maxScore] at h
    cases htl : maxScore tl with
    | none =>
      have htlnil : tl = [] := by
        cases tl with
        | nil => rfl
        | cons r rs =>
          rw [maxScore] at htl
          cases hrs : maxScore rs with
          | none => rw [hrs] at htl; simp at htl
          | some m => rw [hrs] at htl; by_cases hm : m.2 > r.2 <;> simp [hm] at htl
      rw [htl] at h
      simp at h
      subst htlnil
      rcases List.mem_cons.1 hq with rfl | hq
      · simp [h]
      · simp at hq
    | some m =>
      rw [htl] at h
      by_cases hm : m.2 > p.2 <;> simp [hm] at h <;> subst h
      · rcases List.mem_cons.1 hq with rfl | hq
        · exact le_of_lt hm
        · exact ih m htl q hq
      · rcases List.mem_cons.1 hq with rfl | hq
        · exact le_rfl
        · exact (ih m htl q hq).trans (not_lt.1 hm)

theorem maxScore_ne_none (p : ActionType × ℚ) (tl : List (ActionType × ℚ)) :
    maxScore (p :: tl) ≠ none := by
  rw [maxScore]
  cases htl : maxScore tl with
  | none => simp
  | some q => by_cases hq : q.2 > p.2 <;> simp [hq]

theorem addVote_keys (sc : List (ActionType × ℚ)) (t : ActionType) (c : ℚ) :
    (addVote sc t c).map Prod.fst
      = if t ∈ sc.map Prod.fst then sc.map Prod.fst
        else sc.map Prod.fst ++ [t] := by
  induction sc with
  | nil => simp [addVote]
  | cons hd tl ih =>
    obtain ⟨t', s⟩ := hd
    by_cases h : t' = t
    · subst h
      simp [addVote]
    · simp only [addVote, if_neg h, List.map_cons, ih]
      by_cases h2 : t ∈ tl.map Prod.fst <;>
        simp [h2, h, Ne.symm h]

theorem addVote_keys_nodup (sc : List (ActionType × ℚ)) (t : ActionType) (c : ℚ)
    (h : (sc.map Prod.fst).Nodup) : ((addVote sc t c).map Prod.fst).Nodup := by
  rw [addVote_keys]
  split_ifs with ht
  · exact h
  · simp [List.nodup_append, h, ht]

theorem foldl_scores_keys_nodup (votes : List Action) :
    ∀ (sc : List (ActionType × ℚ)), (sc.map Prod.fst).Nodup →
      ((votes.foldl (fun sc a => addVote sc a.action_type a.confidence) sc).map
          Prod.fst).Nodup := by
  induction votes with
  | nil =>
    intro sc hsc
    simpa using hsc
  | cons a rest ih =>
    intro sc hsc
    rw [List.foldl_cons]
    exact ih _ (addVote_keys_nodup sc _ _ hsc)

theorem buildScores_keys_nodup (votes : List Action) :
    ((buildScores votes).map Prod.fst).Nodup :=
  foldl_scores_keys_nodup votes [] (by simp)

theorem scoreOf_eq_zero (sc : List (ActionType × ℚ)) (k : ActionType)
    (h : k ∉ sc.map Prod.fst) : scoreOf sc k = 0 := by
  induction sc with
  | nil => simp [scoreOf]
  | cons hd tl ih =>
    obtain ⟨t', s⟩ := hd
    simp only [List.map_cons, List.mem_cons] at h
    push_neg at h
    rw [scoreOf_cons, if_neg (fun he => h.1 he.symm), ih h.2]
    simp

theorem mem_scoreOf (sc : List (ActionType × ℚ))
    (hnd : (sc.map Prod.fst).Nodup) :
    ∀ b ∈ sc, b.2 = scoreOf sc b.1 := by
  induction sc with
  | nil => simp
  | cons hd tl ih =>
    intro b hb
    obtain ⟨t', s⟩ := hd
    simp only [List.map_cons, List.nodup_cons] at hnd
    rcases List.mem_cons.1 hb with rfl | hb
    · rw [scoreOf_cons, if_pos rfl, scoreOf_eq_zero tl _ hnd.1]
      simp
    · have hne : t' ≠ b.1 := by
        intro he
        exact hnd.1 (he ▸ List.mem_map_of_mem Prod.fst hb)
      rw [scoreOf_cons, if_neg hne, ih hnd.2 b hb]
      simp

theorem aggregate_votes_eq (votes : List Action)
    (hto : total_confidence votes ≠ 0) :
    ∃ best, maxScore (buildScores votes) = some best ∧
      best ∈ buildScores votes ∧
      (aggregate_votes votes).2 = best.2 / total_confidence votes ∧
      (aggregate_votes votes).1.action_type = best.1 ∧
      best.2 = sumFor votes best.1 := by
  have hne : buildScores votes ≠ [] := by
    intro h
    apply hto
    have hv := values_sum_buildScores votes
    rw [h] at hv
    simpa using hv.symm
  cases hms : maxScore (buildScores votes) with
  | none =>
    cases hbs : buildScores votes with
    | nil => exact absurd hbs hne
    | cons p tl => rw [hbs] at hms; exact absurd hms (maxScore_ne_none p tl)
  | some best =>
    have hmem := maxScore_mem _ _ hms
    refine ⟨best, rfl, hmem, ?_, ?_, ?_⟩
    · simp only [aggregate_votes, if_neg hto, hms]
    · simp only [aggregate_votes, if_neg hto, hms]
    · rw [mem_scoreOf _ (buildScores_keys_nodup votes) best hmem,
        scoreOf_buildScores]

theorem aggregate_conf_bounds (votes : List Action)
    (hconf : ∀ a ∈ votes, 0 ≤ a.confidence) :
    0 ≤ (aggregate_votes votes).2 ∧ (aggregate_votes votes).2 ≤ 1 := by
  by_cases hto : total_confidence votes = 0
  · simp only [aggregate_votes, if_pos hto]
    norm_num
  · obtain ⟨best, hms, hmem, hcc, -, -⟩ := aggregate_votes_eq votes hto
    have h0 : 0 ≤ best.2 := buildScores_nonneg votes hconf best hmem
    have hle : best.2 ≤ total_confidence votes := by
      have hmm : best.2 ∈ (buildScores votes).map Prod.snd :=
        List.mem_map_of_mem Prod.snd hmem
      have hall : ∀ x ∈ (buildScores votes).map Prod.snd, (0:ℚ) ≤ x := by
        intro x hx
        obtain ⟨p, hp, rfl⟩ := List.mem_map.1 hx
        exact buildScores_nonneg votes hconf p hp
      have := List.single_le_sum hall best.2 hmm
      rwa [values_sum_buildScores] at this
    have htno : 0 ≤ total_confidence votes := by
      apply List.sum_nonneg
      intro x hx
      obtain ⟨a, ha, rfl⟩ := List.mem_map.1 hx
      exact hconf a ha
    have htpos : 0 < total_confidence votes := lt_of_le_of_ne htno (Ne.symm hto)
    rw [hcc]
    exact ⟨div_nonneg h0 htpos.le, (div_le_one htpos).2 hle⟩

/-! ## Claim C1 (consensus confidence formula) -/

/-- Claim C1 as stated is false on the source: `_aggregate_votes` never
applies the agreement factor `0.7 + 0.3·(votes_for_winner / total_votes)`.
For votes LONG at 0.6 and SHORT at 0.4, the code returns consensus
confidence `0.6/1.0 = 3/5`, while the claimed boosted formula gives
`3/5 · (7/10 + 3/10 · 1/2) = 51/100`; the two differ. -/
theorem C1_counterexample :
    (aggregate_votes
        [⟨ActionType.long, 3/5, 0, 1⟩, ⟨ActionType.short, 2/5, 0, 1⟩]).2 = 3/5 ∧
    spec_boosted_confidence
        [⟨ActionType.long, 3/5, 0, 1⟩, ⟨ActionType.short, 2/5, 0, 1⟩] = 51/100 ∧
    ((3:ℚ)/5 ≠ 51/100) := by
  have hne : (ActionType.short = ActionType.long) = False := by
    simp
  refine ⟨?_, ?_, by norm_num⟩ <;>
    norm_num [aggregate_votes, spec_boosted_confidence, total_confidence,
      buildScores, addVote, maxScore, List.filter_cons, List.filter_nil, hne]

/-- Claim C1 (amended): for every non-empty vote set with positive total
confidence, the consensus kind maximizes the per-kind summed confidence and
the consensus confidence equals the winning kind's summed confidence
divided by the total summed confidence, with NO agreement boost.  When all
engines vote the same kind, the consensus kind equals it and the consensus
confidence is exactly 1 — which is at least `0.7 ×` the per-engine average
confidence whenever each engine confidence is at most 1. -/
theorem C1_consensus_no_boost (votes : List Action)
    (hconf : ∀ a ∈ votes, 0 ≤ a.confidence)
    (hpos : 0 < total_confidence votes) :
    (∀ k, sumFor votes k
        ≤ sumFor votes (aggregate_votes votes).1.action_type) ∧
    ((aggregate_votes votes).2
        = sumFor votes (aggregate_votes votes).1.action_type
            / total_confidence votes) ∧
    (∀ k, (∀ a ∈ votes, a.action_type = k) →
      (aggregate_votes votes).1.action_type = k ∧ (aggregate_votes votes).2 = 1) ∧
    (∀ k, (∀ a ∈ votes, a.action_type = k) → (∀ a ∈ votes, a.confidence ≤ 1) →
      7/10 * (total_confidence votes / votes.length)
        ≤ (aggregate_votes votes).2) := by
  obtain ⟨best, hms, hmem, hcc, hact, hbv⟩ := aggregate_votes_eq votes hpos.ne'
  have hmax : ∀ k, sumFor votes k ≤ best.2 := by
    intro k
    by_cases hk : k ∈ (buildScores votes).map Prod.fst
    · obtain ⟨p, hp, hpk⟩ := List.mem_map.1 hk
      have hple := maxScore_ge _ _ hms p hp
      calc sumFor votes k = scoreOf (buildScores votes) k :=
            (scoreOf_buildScores votes k).symm
        _ = p.2 := by
            rw [mem_scoreOf _ (buildScores_keys_nodup votes) p hp, hpk]
        _ ≤ best.2 := hple
    · have hz : sumFor votes k = 0 := by
        rw [← scoreOf_buildScores]
        exact scoreOf_eq_zero _ _ hk
      rw [hz]
      exact buildScores_nonneg votes hconf best hmem
  have hsame : ∀ k, (∀ a ∈ votes, a.action_type = k) →
      (aggregate_votes votes).1.action_type = k ∧ (aggregate_votes votes).2 = 1 := by
    intro k hk
    have hsk : sumFor votes k = total_confidence votes := by
      unfold sumFor total_confidence
      have hfe : votes.filter (fun v => v.action_type = k) = votes :=
        List.filter_eq_self.2 (fun a ha => by simpa using hk a ha)
      rw [hfe]
    have hbk : best.1 = k := by
      by_contra hne
      have h0 : sumFor votes best.1 = 0 := by
        unfold sumFor
        have : votes.filter (fun v => v.action_type = best.1) = [] := by
          apply List.filter_eq_nil_iff.2
          intro a ha
          simp [hk a ha, Ne.symm hne]
        rw [this]
        simp
      have hb0 : best.2 = 0 := by rw [hbv, h0]
      have := hmax k
      rw [hb0, hsk] at this
      linarith
    refine ⟨by rw [hact, hbk], ?_⟩
    rw [hcc, hbv, hbk, hsk, div_self hpos.ne']
  refine ⟨?_, ?_, hsame, ?_⟩
  · intro k
    rw [hact, ← hbv]
    exact hmax k
  · rw [hcc, hact, ← hbv]
  · intro k hk hle
    rw [(hsame k hk).2]
    have hlen : votes ≠ [] := by
      intro h
      rw [h] at hpos
      simp [total_confidence] at hpos
    have hlen0 : (0:ℚ) < votes.length := by
      have hl : 0 < votes.length := List.length_pos.2 hlen
      exact_mod_cast hl
    have htle : total_confidence votes ≤ votes.length := by
      have := List.sum_le_card_nsmul (votes.map Action.confidence) 1 ?hb
      · simpa [total_confidence] using this
      case hb =>
        intro x hx
        obtain ⟨a, ha, rfl⟩ := List.mem_map.1 hx
        exact hle a ha
    have hquot : total_confidence votes / votes.length ≤ 1 :=
      (div_le_one hlen0).2 htle
    have hquot0 : 0 ≤ total_confidence votes / votes.length :=
      div_nonneg hpos.le hlen0.le
    nlinarith

/-! ## Claim C6 (run confidence bounds and zero-vote behavior) -/

/-- Claim C6 (confirmed): `HyperEnsemble.run` always returns a consensus
confidence in [0, 1] (engine confidences being nonnegative, as the `Action`
model validates), and whenever zero engine votes are collected — no engines
registered, or every registered engine raised — it returns a HOLD decision
with status blocked and consensus confidence 0. -/
theorem C6_ensemble_run (min_confidence : ℚ) (engineResults : List (Option Action))
    (hconf : ∀ a ∈ engineResults.filterMap id, 0 ≤ a.confidence) :
    (0 ≤ (ensembleRun min_confidence engineResults).consensus_confidence ∧
      (ensembleRun min_confidence engineResults).consensus_confidence ≤ 1) ∧
    (engineResults.filterMap id = [] →
      (ensembleRun min_confidence engineResults).status = DecisionStatus.blocked ∧
      (ensembleRun min_confidence engineResults).action.action_type
          = ActionType.hold ∧
      (ensembleRun min_confidence engineResults).consensus_confidence = 0) := by
  by_cases hemp : (engineResults.filterMap id).isEmpty
  · simp only [ensembleRun, hemp, if_pos]
    refine ⟨⟨le_refl 0, zero_le_one⟩, fun _ => ⟨rfl, rfl, rfl⟩⟩
  · have hbounds := aggregate_conf_bounds (engineResults.filterMap id) hconf
    constructor
    · simp only [ensembleRun, hemp, if_false, Bool.false_eq_true]
      exact hbounds
    · intro h
      rw [h] at hemp
      simp at hemp

/-! ## Claim C8 helpers (allocation bounds and monotonicity) -/

theorem suggest_allocation_bounds (e : OnflowEngine) (ms : MarketState)
    (hmm : e.min_allocation ≤ e.max_allocation) :
    e.min_allocation ≤ e.suggest_allocation ms ∧
      e.suggest_allocation ms ≤ e.max_allocation := by
  rcases hw : e.ewma_win_rate with _ | p <;>
    rcases hr : e.ewma_avg_return with _ | r <;>
    simp only [OnflowEngine.suggest_allocation, hw, hr]
  · exact ⟨le_rfl, hmm⟩
  · exact ⟨le_rfl, hmm⟩
  · exact ⟨le_rfl, hmm⟩
  · exact ⟨lo_le_np_clip _ _ _ hmm, np_clip_le_hi _ _ _⟩

theorem suggest_mono_win (α maxA minA kf p₁ p₂ r : ℚ) (ev : Option ℚ) (tc : Nat)
    (ms : MarketState) (hminA : 0 ≤ minA) (hp₁ : 0 ≤ p₁) (hp : p₁ ≤ p₂) :
    OnflowEngine.suggest_allocation ⟨α, maxA, minA, kf, some p₁, some r, ev, tc⟩ ms
      ≤ OnflowEngine.suggest_allocation ⟨α, maxA, minA, kf, some p₂, some r, ev, tc⟩ ms := by
  simp only [OnflowEngine.suggest_allocation]
  exact clip_scale_mono _ _ _ _ _ hminA (by linarith) (by linarith)

theorem clip_kelly_mono_return (vol minA maxA kf W r₁ r₂ : ℚ)
    (hkf : 0 ≤ kf) (hW : 0 ≤ W) (hr : r₁ ≤ r₂) :
    np_clip ((if vol > 0 then r₁ / 100 / vol ^ 2 else minA) * kf * W) minA maxA
      ≤ np_clip ((if vol > 0 then r₂ / 100 / vol ^ 2 else minA) * kf * W) minA maxA := by
  split_ifs with hv
  · apply np_clip_mono
    have hd : r₁ / 100 / vol ^ 2 ≤ r₂ / 100 / vol ^ 2 :=
      (div_le_div_right (by positivity)).2 (by linarith)
    exact mul_le_mul_of_nonneg_right
      (mul_le_mul_of_nonneg_right hd hkf) hW
  · exact le_rfl

theorem suggest_mono_return (α maxA minA kf p r₁ r₂ : ℚ) (ev : Option ℚ) (tc : Nat)
    (ms : MarketState) (hkf : 0 ≤ kf) (hp : 0 ≤ p) (hr : r₁ ≤ r₂) :
    OnflowEngine.suggest_allocation ⟨α, maxA, minA, kf, some p, some r₁, ev, tc⟩ ms
      ≤ OnflowEngine.suggest_allocation ⟨α, maxA, minA, kf, some p, some r₂, ev, tc⟩ ms := by
  simp only [OnflowEngine.suggest_allocation]
  exact clip_kelly_mono_return _ _ _ _ _ _ _ hkf (by linarith) hr

theorem clip_kelly_anti_vol (minA maxA kf W r v₁ v₂ : ℚ)
    (hminA : 0 ≤ minA) (hkf : 0 ≤ kf) (hW : 0 ≤ W)
    (hv₁ : 0 < v₁) (hv : v₁ ≤ v₂) :
    np_clip ((if v₂ > 0 then r / 100 / v₂ ^ 2 else minA) * kf * W) minA maxA
      ≤ np_clip ((if v₁ > 0 then r / 100 / v₁ ^ 2 else minA) * kf * W) minA maxA := by
  rw [if_pos hv₁, if_pos (hv₁.trans_le hv)]
  have h1 : r / 100 / v₁ ^ 2 * kf * W = r / 100 * kf * W / v₁ ^ 2 := by ring
  have h2 : r / 100 / v₂ ^ 2 * kf * W = r / 100 * kf * W / v₂ ^ 2 := by ring
  rw [h1, h2]
  exact clip_div_sq_antitone _ _ _ _ _ hminA hv₁ hv

theorem suggest_anti_vol (α maxA minA kf p r : ℚ) (ev : Option ℚ) (tc : Nat)
    (ms₁ ms₂ : MarketState) (v₁ v₂ : ℚ)
    (h₁ : ms₁.volatility = v₁) (h₂ : ms₂.volatility = v₂)
    (hminA : 0 ≤ minA) (hkf : 0 ≤ kf) (hp : 0 ≤ p)
    (hv₁ : 0 < v₁) (hv : v₁ ≤ v₂) :
    OnflowEngine.suggest_allocation ⟨α, maxA, minA, kf, some p, some r, ev, tc⟩ ms₂
      ≤ OnflowEngine.suggest_allocation ⟨α, maxA, minA, kf, some p, some r, ev, tc⟩ ms₁ := by
  have hv₂ : 0 < v₂ := hv₁.trans_le hv
  simp only [OnflowEngine.suggest_allocation, h₁, h₂, if_pos hv₁, if_pos hv₂]
  cases ev with
  | none =>
    dsimp only
    exact clip_kelly_anti_vol _ _ _ _ _ _ _ hminA hkf (by linarith) hv₁ hv
  | some evv =>
    dsimp only
    by_cases hev : evv > 0
    · simp only [if_pos hev]
      exact clip_kelly_anti_vol _ _ _ _ _ _ _ hminA hkf (by linarith)
        (by linarith) (by linarith)
    · simp only [if_neg hev]
      exact clip_kelly_anti_vol _ _ _ _ _ _ _ hminA hkf (by linarith) hv₁ hv

/-! ## Claim C8 (allocation bounds and monotonicity) -/

/-- Claim C8 as stated is false on the source: `suggest_allocation` is not
monotonically non-increasing in the snapshot volatility at volatility 0,
because a zero volatility is replaced by the default 0.1.  For an engine
with EWMA win rate 1, average return 1 and EWMA volatility 0, the
allocation at snapshot volatility 0 is 1/4 but at the larger volatility
1/20 it is 1/2. -/
theorem C8_counterexample :
    ((0:ℚ) ≤ 1/20) ∧
    OnflowEngine.suggest_allocation
        ⟨1/5, 1/2, 1/100, 1/4, some 1, some 1, some 0, 1⟩
        { price := 100, bid := 100, ask := 100, volatility := 0 } = 1/4 ∧
    OnflowEngine.suggest_allocation
        ⟨1/5, 1/2, 1/100, 1/4, some 1, some 1, some 0, 1⟩
        { price := 100, bid := 100, ask := 100, volatility := 1/20 } = 1/2 ∧
    ¬ (OnflowEngine.suggest_allocation
          ⟨1/5, 1/2, 1/100, 1/4, some 1, some 1, some 0, 1⟩
          { price := 100, bid := 100, ask := 100, volatility := 1/20 }
        ≤ OnflowEngine.suggest_allocation
          ⟨1/5, 1/2, 1/100, 1/4, some 1, some 1, some 0, 1⟩
          { price := 100, bid := 100, ask := 100, volatility := 0 }) := by
  refine ⟨by norm_num, ?_, ?_, ?_⟩ <;>
    norm_num [OnflowEngine.suggest_allocation, np_clip]

/-- Claim C8 (amended): `suggest_allocation` always stays within
`[min_allocation, max_allocation]`; holding the other EWMA state components
and the snapshot fixed it is monotonically non-decreasing in the EWMA
win-rate and in the EWMA average return; and it is monotonically
non-increasing in the snapshot's volatility over strictly positive
volatilities.  (At volatility exactly 0 the code substitutes the default
0.1, so monotonicity does not extend to 0 — see the counterexample.)
Hypotheses reflect the validated ranges: a nonnegative Kelly fraction,
win rates in `[0, 1]`-style nonnegativity, and
`0 ≤ min_allocation ≤ max_allocation`. -/
theorem C8_allocation_shape (α maxA minA kf : ℚ)
    (hminA : 0 ≤ minA) (hmm : minA ≤ maxA) (hkf : 0 ≤ kf) :
    (∀ (e : OnflowEngine) (ms : MarketState),
      e.min_allocation = minA → e.max_allocation = maxA →
        minA ≤ e.suggest_allocation ms ∧ e.suggest_allocation ms ≤ maxA) ∧
    (∀ (p₁ p₂ r : ℚ) (ev : Option ℚ) (tc : Nat) (ms : MarketState),
      0 ≤ p₁ → p₁ ≤ p₂ →
      OnflowEngine.suggest_allocation ⟨α, maxA, minA, kf, some p₁, some r, ev, tc⟩ ms
        ≤ OnflowEngine.suggest_allocation ⟨α, maxA, minA, kf, some p₂, some r, ev, tc⟩ ms) ∧
    (∀ (p r₁ r₂ : ℚ) (ev : Option ℚ) (tc : Nat) (ms : MarketState),
      0 ≤ p → r₁ ≤ r₂ →
      OnflowEngine.suggest_allocation ⟨α, maxA, minA, kf, some p, some r₁, ev, tc⟩ ms
        ≤ OnflowEngine.suggest_allocation ⟨α, maxA, minA, kf, some p, some r₂, ev, tc⟩ ms) ∧
    (∀ (p r : ℚ) (ev : Option ℚ) (tc : Nat) (ms : MarketState) (v₁ v₂ : ℚ),
      0 ≤ p → 0 < v₁ → v₁ ≤ v₂ →
      OnflowEngine.suggest_allocation ⟨α, maxA, minA, kf, some p, some r, ev, tc⟩
          { ms with volatility := v₂ }
        ≤ OnflowEngine.suggest_allocation ⟨α, maxA, minA, kf, some p, some r, ev, tc⟩
          { ms with volatility := v₁ }) := by
  refine ⟨?_, ?_, ?_, ?_⟩
  · intro e ms hmin hmax
    have := suggest_allocation_bounds e ms (by rw [hmin, hmax]; exact hmm)
    rw [hmin, hmax] at this
    exact this
  · intro p₁ p₂ r ev tc ms hp₁ hp
    exact suggest_mono_win α maxA minA kf p₁ p₂ r ev tc ms hminA hp₁ hp
  · intro p r₁ r₂ ev tc ms hp hr
    exact suggest_mono_return α maxA minA kf p r₁ r₂ ev tc ms hkf hp hr
  · intro p r ev tc ms v₁ v₂ hp hv₁ hv
    exact suggest_anti_vol α maxA minA kf p r ev tc
      { ms with volatility := v₁ } { ms with volatility := v₂ } v₁ v₂ rfl rfl
      hminA hkf hp hv₁ hv

theorem C8_allocation_shape_witness :
    OnflowEngine.suggest_allocation
        ⟨1/5, 1/2, 1/100, 1/4, some (9/10), some 5, some (1/10), 3⟩
        { price := 100, bid := 100, ask := 100, volatility := 1/5 }
      ≤ OnflowEngine.suggest_allocation
        ⟨1/5, 1/2, 1/100, 1/4, some (9/10), some 5, some (1/10), 3⟩
        { price := 100, bid := 100, ask := 100, volatility := 1/10 } :=
  (C8_allocation_shape (1/5) (1/2) (1/100) (1/4)
      (by norm_num) (by norm_num) (by norm_num)).2.2.2
    (9/10) 5 (some (1/10)) 3 { price := 100, bid := 100, ask := 100 }
    (1/10) (1/5) (by norm_num) (by norm_num) (by norm_num)

/-! ## Claim C10 helpers (paper-trader capital ledger) -/

theorem closeTrade_trade_id (bs bf : ℚ) (t : SimTrade) (ms : MarketState) :
    (closeTrade bs bf t ms).trade_id = t.trade_id := rfl

theorem closeTrade_size (bs bf : ℚ) (t : SimTrade) (ms : MarketState) :
    (closeTrade bs bf t ms).size_usd = t.size_usd := rfl

theorem closedPnl_closeTrade (bs bf : ℚ) (t : SimTrade) (ms : MarketState) :
    closedPnl (closeTrade bs bf t ms) = (closeTrade bs bf t ms).pnl.getD 0 := rfl

theorem sum_map_replace (f : SimTrade → ℚ) (l : List SimTrade) (tid : Nat)
    (t t' : SimTrade) (ht : t ∈ l) (htid : t.trade_id = tid)
    (hpw : l.Pairwise (fun a b => a.trade_id ≠ b.trade_id)) :
    ((l.map (fun u => if u.trade_id = tid then t' else u)).map f).sum
      = (l.map f).sum + f t' - f t := by
  subst htid
  induction l with
  | nil => cases ht
  | cons hd tl ih =>
    rcases List.pairwise_cons.1 hpw with ⟨hhd, htl⟩
    rcases List.mem_cons.1 ht with rfl | htmem
    · have hmap : tl.map (fun u => if u.trade_id = t.trade_id then t' else u) = tl := by
        have hcg : ∀ u ∈ tl,
            (if u.trade_id = t.trade_id then t' else u) = id u := by
          intro u hu
          rw [if_neg (fun hh => hhd u hu hh.symm)]
          rfl
        rw [List.map_congr_left hcg, List.map_id]
      simp only [List.map_cons, List.sum_cons, hmap, if_pos, if_true]
      ring
    · have hne : ¬ (hd.trade_id = t.trade_id) := hhd t htmem
      simp only [List.map_cons, if_neg hne, List.sum_cons, ih htmem htl]
      ring

theorem WF_mkTrader (c f s : ℚ) : WF (mkTrader c f s) := by
  refine ⟨?_, ?_, ?_, ?_⟩ <;> simp [mkTrader, WF]

theorem WF_simulate (pt : PaperTrader) (a : Action) (ms : MarketState) (s : ℚ)
    (h : WF pt) : WF (simulate_execution pt a ms s).1 := by
  obtain ⟨hcap, hopen, hbound, hpw⟩ := h
  refine ⟨?_, ?_, ?_, ?_⟩
  · simp only [simulate_execution, List.map_append, List.sum_append]
    simp [closedPnl, entryFee, hcap]
    ring
  · intro p hp
    simp only [simulate_execution] at hp ⊢
    rcases List.mem_append.1 hp with hp | hp
    · obtain ⟨h1, h2, h3⟩ := hopen p hp
      exact ⟨h1, h2, List.mem_append_left _ h3⟩
    · simp at hp
      subst hp
      exact ⟨rfl, rfl, List.mem_append_right _ (by simp)⟩
  · intro t htm
    simp only [simulate_execution] at htm ⊢
    rcases List.mem_append.1 htm with htm | htm
    · exact (hbound t htm).trans (Nat.le_succ _)
    · simp at htm
      subst htm
      exact le_rfl
  · simp only [simulate_execution]
    rw [List.pairwise_append]
    refine ⟨hpw, by simp, ?_⟩
    intro x hx y hy
    simp at hy
    subst hy
    have hxb := hbound x hx
    simp only []
    omega

theorem WF_exit (pt : PaperTrader) (tid : Nat) (ms : MarketState)
    (h : WF pt) : WF (record_exit pt tid ms).1 := by
  obtain ⟨hcap, hopen, hbound, hpw⟩ := h
  cases hfo : findOpen pt.open_positions tid with
  | none =>
    simp only [record_exit, hfo]
    exact ⟨hcap, hopen, hbound, hpw⟩
  | some trade =>
    obtain ⟨p, hfind, hp2⟩ :
        ∃ p, pt.open_positions.find? (fun q => q.1 = tid) = some p ∧ p.2 = trade := by
      unfold findOpen at hfo
      cases hq : pt.open_positions.find? (fun q => q.1 = tid) with
      | none => rw [hq] at hfo; simp at hfo
      | some p => rw [hq] at hfo; simp at hfo; exact ⟨p, rfl, hfo⟩
    have hpmem : p ∈ pt.open_positions := List.mem_of_find?_eq_some hfind
    have hptid : p.1 = tid := by simpa using List.find?_some hfind
    obtain ⟨hid, hcl, htr⟩ := hopen p hpmem
    rw [hp2] at hid hcl htr
    have htid : trade.trade_id = tid := hid.trans hptid
    have hgid : ∀ u : SimTrade,
        (if u.trade_id = tid
          then closeTrade pt.base_slippage_bps pt.base_fee_bps trade ms
          else u).trade_id = u.trade_id := by
      intro u
      split_ifs with hu
      · rw [closeTrade_trade_id, htid, hu]
      · rfl
    refine ⟨?_, ?_, ?_, ?_⟩
    · simp only [record_exit, hfo]
      rw [sum_map_replace _ _ tid trade _ htr htid hpw, hcap]
      have h1 : closedPnl trade = 0 := by simp [closedPnl, hcl]
      have h2 : entryFee pt.base_fee_bps
            (closeTrade pt.base_slippage_bps pt.base_fee_bps trade ms)
          = entryFee pt.base_fee_bps trade := rfl
      rw [closedPnl_closeTrade, h1, h2]
      ring
    · intro q hq
      simp only [record_exit, hfo] at hq ⊢
      have hqmem : q ∈ pt.open_positions := List.mem_of_mem_filter hq
      have hqne : ¬ (q.1 = tid) := by
        have := List.of_mem_filter hq
        simpa using this
      obtain ⟨hq1, hq2, hq3⟩ := hopen q hqmem
      refine ⟨hq1, hq2, ?_⟩
      have hfix : (if q.2.trade_id = tid
            then closeTrade pt.base_slippage_bps pt.base_fee_bps trade ms
            else q.2) = q.2 := by
        rw [if_neg (by rw [hq1]; exact hqne)]
      rw [← hfix]
      exact List.mem_map_of_mem _ hq3
    · intro t htm
      simp only [record_exit, hfo] at htm ⊢
      obtain ⟨u, hu, rfl⟩ := List.mem_map.1 htm
      rw [hgid u]
      exact hbound u hu
    · simp only [record_exit, hfo]
      exact List.Pairwise.map _
        (fun x y hxy => by rw [hgid x, hgid y]; exact hxy) hpw

theorem WF_runOps (pt : PaperTrader) (ops : List TraderOp) (h : WF pt) :
    WF (runOps pt ops) := by
  induction ops generalizing pt with
  | nil => exact h
  | cons op rest ih =>
    rw [runOps, List.foldl_cons]
    cases op with
    | exec a ms s => exact ih _ (WF_simulate pt a ms s h)
    | exitAt tid ms => exact ih _ (WF_exit pt tid ms h)

theorem runOps_preserves (pt : PaperTrader) (ops : List TraderOp) :
    (runOps pt ops).initial_capital = pt.initial_capital ∧
    (runOps pt ops).base_fee_bps = pt.base_fee_bps := by
  induction ops generalizing pt with
  | nil => exact ⟨rfl, rfl⟩
  | cons op rest ih =>
    rw [runOps, List.foldl_cons]
    have hstep : (applyOp pt op).initial_capital = pt.initial_capital ∧
        (applyOp pt op).base_fee_bps = pt.base_fee_bps := by
      cases op with
      | exec a ms s => exact ⟨rfl, rfl⟩
      | exitAt tid ms =>
        simp only [applyOp]
        cases hfo : findOpen pt.open_positions tid with
        | none => simp [record_exit, hfo]
        | some trade => simp [record_exit, hfo]
    obtain ⟨h1, h2⟩ := ih (applyOp pt op)
    rw [runOps] at h1 h2
    exact ⟨h1.trans hstep.1, h2.trans hstep.2⟩

theorem sum_closed_sub (l : List SimTrade) (f : ℚ) :
    (l.map (fun t => closedPnl t - entryFee f t)).sum
      = ((l.filter (fun t => t.is_closed)).map (fun t => t.pnl.getD 0)).sum
        - (l.map (entryFee f)).sum := by
  induction l with
  | nil => simp
  | cons hd tl ih =>
    by_cases h : hd.is_closed = true
    · simp only [List.map_cons, List.sum_cons, List.filter_cons, if_pos h, ih]
      simp [closedPnl, h]
      ring
    · simp only [List.map_cons, List.sum_cons, List.filter_cons, if_neg h, ih]
      simp [closedPnl, h]
      ring

/-! ## Claim C10 (paper-trader capital accounting invariant) -/

/-- Claim C10 (confirmed): after any sequence of `simulate_execution` and
`record_exit` operations starting from a fresh `PaperTrader`, the current
capital equals the initial capital minus the sum of entry fees of all
opened trades plus the sum of recorded PnL of all closed trades; each
`simulate_execution` changes capital by exactly minus that trade's entry
fee; and each successful `record_exit` changes capital by exactly the
returned trade's recorded PnL (which already has the exit fee deducted,
but not the entry fee). -/
theorem C10_capital_ledger :
    (∀ (c f s : ℚ) (ops : List TraderOp),
      (runOps (mkTrader c f s) ops).current_capital
        = c - ((runOps (mkTrader c f s) ops).trades.map (entryFee f)).sum
          + (((runOps (mkTrader c f s) ops).trades.filter
                (fun t => t.is_closed)).map (fun t => t.pnl.getD 0)).sum) ∧
    (∀ (pt : PaperTrader) (a : Action) (ms : MarketState) (s : ℚ),
      (simulate_execution pt a ms s).1.current_capital
        = pt.current_capital - s * (pt.base_fee_bps / 10000)) ∧
    (∀ (pt : PaperTrader) (tid : Nat) (ms : MarketState) (t' : SimTrade),
      (record_exit pt tid ms).2 = some t' →
      (record_exit pt tid ms).1.current_capital
        = pt.current_capital + t'.pnl.getD 0) := by
  refine ⟨?_, ?_, ?_⟩
  · intro c f s ops
    have hwf := WF_runOps (mkTrader c f s) ops (WF_mkTrader c f s)
    obtain ⟨hcap, -, -, -⟩ := hwf
    obtain ⟨hic, hbf⟩ := runOps_preserves (mkTrader c f s) ops
    have hic' : (runOps (mkTrader c f s) ops).initial_capital = c := hic.trans rfl
    have hbf' : (runOps (mkTrader c f s) ops).base_fee_bps = f := hbf.trans rfl
    rw [hcap, hic', hbf', sum_closed_sub]
    ring
  · intro pt a ms s
    rfl
  · intro pt tid ms t' h
    cases hfo : findOpen pt.open_positions tid with
    | none =>
      simp only [record_exit, hfo] at h
      simp at h
    | some trade =>
      simp only [record_exit, hfo] at h ⊢
      simp at h
      rw [h]

theorem C10_capital_ledger_witness :
    (record_exit
        (simulate_execution (mkTrader 100 5 0) ⟨ActionType.long, 1, 0, 1⟩
          { price := 100, bid := 100, ask := 100 } 10000).1
        1 { price := 100, bid := 100, ask := 100 }).1.current_capital
      = (simulate_execution (mkTrader 100 5 0) ⟨ActionType.long, 1, 0, 1⟩
          { price := 100, bid := 100, ask := 100 } 10000).1.current_capital
        + (({ trade_id := 1, action_type := ActionType.long, entry_price := 100,
              exit_price := some 100, size_usd := 10000, leverage := 1, fees := 10,
              slippage_bps := 0, pnl := some (-5), is_closed := true } :
            SimTrade)).pnl.getD 0 :=
  C10_capital_ledger.2.2
    (simulate_execution (mkTrader 100 5 0) ⟨ActionType.long, 1, 0, 1⟩
      { price := 100, bid := 100, ask := 100 } 10000).1
    1 { price := 100, bid := 100, ask := 100 }
    { trade_id := 1, action_type := ActionType.long, entry_price := 100,
      exit_price := some 100, size_usd := 10000, leverage := 1, fees := 10,
      slippage_bps := 0, pnl := some (-5), is_closed := true }
    (by norm_num [record_exit, simulate_execution, closeTrade, mkTrader, findOpen])

theorem C6_ensemble_run_witness :
    (0 ≤ (ensembleRun (3/4)
          [some ⟨ActionType.long, 1/2, 0, 1⟩, none]).consensus_confidence ∧
      (ensembleRun (3/4)
          [some ⟨ActionType.long, 1/2, 0, 1⟩, none]).consensus_confidence ≤ 1) ∧
    (([some (⟨ActionType.long, 1/2, 0, 1⟩ : Action), none]).filterMap id = [] →
      (ensembleRun (3/4)
          [some ⟨ActionType.long, 1/2, 0, 1⟩, none]).status
        = DecisionStatus.blocked ∧
      (ensembleRun (3/4)
          [some ⟨ActionType.long, 1/2, 0, 1⟩, none]).action.action_type
        = ActionType.hold ∧
      (ensembleRun (3/4)
          [some ⟨ActionType.long, 1/2, 0, 1⟩, none]).consensus_confidence = 0) :=
  C6_ensemble_run (3/4) [some ⟨ActionType.long, 1/2, 0, 1⟩, none]
    (by intro a ha; simp at ha; subst ha; norm_num)

theorem C1_consensus_no_boost_witness :
    (aggregate_votes
        [⟨ActionType.long, 1/2, 0, 1⟩, ⟨ActionType.short, 1/4, 0, 1⟩]).2
      = sumFor [⟨ActionType.long, 1/2, 0, 1⟩, ⟨ActionType.short, 1/4, 0, 1⟩]
          (aggregate_votes
            [⟨ActionType.long, 1/2, 0, 1⟩, ⟨ActionType.short, 1/4, 0, 1⟩]).1.action_type
        / total_confidence
            [⟨ActionType.long, 1/2, 0, 1⟩, ⟨ActionType.short, 1/4, 0, 1⟩] :=
  (C1_consensus_no_boost
      [⟨ActionType.long, 1/2, 0, 1⟩, ⟨ActionType.short, 1/4, 0, 1⟩]
      (by intro a ha; fin_cases ha <;> norm_num)
      (by norm_num [total_confidence])).2.1

end HyperBot

